import Mathlib

/-!
Verification of the in-memory Express backend (`src/server.js`).

The server keeps three pieces of mutable state: a list of users, a scalar
account balance and a list of transactions.  Each Express route handler is
embedded as a pure Lean function from the request data and the current state
to a response together with the next state.  JavaScript numbers are modelled
as rationals (`Rat`): every body reaching the handlers has been produced by
the JSON parser, whose numbers are finite, and the arithmetic the handlers
perform (`+`, `-`, comparisons on amounts) is exact on the values the claims
concern.  Request bodies are arbitrary JSON, so a `Json` type models them;
`req.body.field` access is modelled by passing the (possibly absent) field
value as an `Option Json` argument.  `parseInt(req.params.id)` is modelled
as an `Option Int` argument, `none` standing for `NaN` (which compares
unequal to every id under `===`).  `new Date().toISOString()` is modelled by
passing the date string as an argument.
-/

namespace BackendDemo

/-- A JSON value, as produced by the `express.json()` body parser. -/
inductive Json where
  | null : Json
  | bool (b : Bool) : Json
  | num (q : Rat) : Json
  | str (s : String) : Json
  | arr (elems : List Json) : Json
  | obj (fields : List (String × Json)) : Json

/-- Does a JSON value carry a string? -/
def Json.isStr : Json → Bool
  | .str _ => true
  | _ => false

/-- A stored user.  The `id` is always assigned by the server (an integer);
the `name` is copied verbatim from `req.body.name`, which may be any JSON
value or absent (`none` models JavaScript `undefined`). -/
structure User where
  id : Int
  name : Option Json

/-- The two transaction kinds pushed by the bank handlers. -/
inductive TxType where
  | deposit
  | withdrawal
deriving DecidableEq

/-- A transaction record `{ type, amount, date }` as pushed by the
deposit and withdraw handlers. -/
structure Transaction where
  type : TxType
  amount : Rat
  date : String
deriving DecidableEq

/-- The whole mutable state of the process: the `users` array and the
`balance` / `transactions` pair. -/
structure ServerState where
  users : List User
  balance : Rat
  transactions : List Transaction

/-- The initial state: two seeded users, zero balance, no transactions. -/
def initState : ServerState :=
  { users := [⟨1, some (Json.str ("Eddie"))⟩, ⟨2, some (Json.str ("Kai"))⟩],
    balance := 0,
    transactions := [] }

/-- The payload of a response, one constructor per shape of object the
handlers pass to `res.send` / `res.json`. -/
inductive RespBody where
  | text (s : String)
  | userList (us : List User)
  | userVal (u : User)
  | errorMsg (s : String)
  | messageMsg (s : String)
  | balanceVal (b : Rat)
  | depositOk (amount : Rat) (balance : Rat)
  | withdrawOk (amount : Rat) (balance : Rat)
  | txList (ts : List Transaction)

/-- An HTTP response: status code and JSON (or text) body. -/
structure Response where
  status : Nat
  body : RespBody

/-- The comparison `u.id === parseInt(req.params.id)`: `none` models `NaN`,
which is `===`-unequal to everything. -/
def idMatches (pid : Option Int) (u : User) : Bool :=
  match pid with
  | some n => u.id == n
  | none => false

/-- Handler of `GET /`. -/
def getRootHandler : Response :=
  ⟨200, .text ("Welcome to the backend!")⟩

/-- Handler of `GET /users`. -/
def getUsersHandler (s : ServerState) : Response :=
  ⟨200, .userList s.users⟩

/-- Handler of `GET /users/:id`: linear scan via `users.find`, 404 when the
scan finds nothing. -/
def getUserByIdHandler (pid : Option Int) (s : ServerState) : Response :=
  match s.users.find? (idMatches pid) with
  | none => ⟨404, .errorMsg ("User not found")⟩
  | some u => ⟨200, .userVal u⟩

/-- Handler of `POST /users`: id assigned as `users.length + 1`, name copied
from the body, new user pushed at the end. -/
def postUsersHandler (name : Option Json) (s : ServerState) : Response × ServerState :=
  let newUser : User := ⟨(s.users.length : Int) + 1, name⟩
  (⟨201, .userVal newUser⟩, { s with users := s.users ++ [newUser] })

/-- Mutation performed by `PUT /users/:id`: `users.find` returns a reference
to the first matching element, whose `name` field is then assigned. -/
def setNameFirst (pid : Option Int) (name : Option Json) : List User → List User
  | [] => []
  | u :: rest =>
    if idMatches pid u then { u with name := name } :: rest
    else u :: setNameFirst pid name rest

/-- Handler of `PUT /users/:id`: 404 when no user matches, otherwise the
first matching user's name is overwritten and the updated user returned. -/
def putUserHandler (pid : Option Int) (name : Option Json) (s : ServerState) :
    Response × ServerState :=
  match s.users.find? (idMatches pid) with
  | none => (⟨404, .errorMsg ("User not found")⟩, s)
  | some u =>
    (⟨200, .userVal { u with name := name }⟩,
     { s with users := setNameFirst pid name s.users })

/-- Handler of `DELETE /users/:id`: filters out every matching user and
always reports success. -/
def deleteUserHandler (pid : Option Int) (s : ServerState) : Response × ServerState :=
  (⟨200, .messageMsg ("User deleted")⟩,
   { s with users := s.users.filter (fun u => !(idMatches pid u)) })

/-- Handler of `GET /balance`. -/
def getBalanceHandler (s : ServerState) : Response :=
  ⟨200, .balanceVal s.balance⟩

/-- Handler of `POST /deposit`: 400 unless `req.body.amount` is a number
greater than zero, otherwise the balance grows and a deposit record is
pushed. -/
def postDepositHandler (amount : Option Json) (date : String) (s : ServerState) :
    Response × ServerState :=
  match amount with
  | some (.num q) =>
    if q ≤ 0 then (⟨400, .errorMsg ("Invalid deposit amount")⟩, s)
    else
      (⟨200, .depositOk q (s.balance + q)⟩,
       { s with
           balance := s.balance + q,
           transactions := s.transactions ++ [⟨.deposit, q, date⟩] })
  | _ => (⟨400, .errorMsg ("Invalid deposit amount")⟩, s)

/-- Handler of `POST /withdraw`: 400 unless the amount is a positive number
not exceeding the balance, otherwise the balance shrinks and a withdrawal
record is pushed. -/
def postWithdrawHandler (amount : Option Json) (date : String) (s : ServerState) :
    Response × ServerState :=
  match amount with
  | some (.num q) =>
    if q ≤ 0 then (⟨400, .errorMsg ("Invalid withdrawal amount")⟩, s)
    else if s.balance < q then (⟨400, .errorMsg ("Insufficient funds")⟩, s)
    else
      (⟨200, .withdrawOk q (s.balance - q)⟩,
       { s with
           balance := s.balance - q,
           transactions := s.transactions ++ [⟨.withdrawal, q, date⟩] })
  | _ => (⟨400, .errorMsg ("Invalid withdrawal amount")⟩, s)

/-- Handler of `GET /transactions`. -/
def getTransactionsHandler (s : ServerState) : Response :=
  ⟨200, .txList s.transactions⟩

/-- Handler of `DELETE /transactions`: resets the log to the empty array. -/
def deleteTransactionsHandler (s : ServerState) : Response × ServerState :=
  (⟨200, .messageMsg ("All transactions cleared.")⟩, { s with transactions := [] })

/-- One API operation, carrying the request data the handler reads. -/
inductive Op where
  | getRoot
  | getUsers
  | getUser (pid : Option Int)
  | postUsers (name : Option Json)
  | putUser (pid : Option Int) (name : Option Json)
  | deleteUser (pid : Option Int)
  | getBalance
  | deposit (amount : Option Json) (date : String)
  | withdraw (amount : Option Json) (date : String)
  | getTransactions
  | deleteTransactions

/-- Dispatch an operation to its handler: the response and the next state. -/
def exec : Op → ServerState → Response × ServerState
  | .getRoot, s => (getRootHandler, s)
  | .getUsers, s => (getUsersHandler s, s)
  | .getUser pid, s => (getUserByIdHandler pid s, s)
  | .postUsers name, s => postUsersHandler name s
  | .putUser pid name, s => putUserHandler pid name s
  | .deleteUser pid, s => deleteUserHandler pid s
  | .getBalance, s => (getBalanceHandler s, s)
  | .deposit a d, s => postDepositHandler a d s
  | .withdraw a d, s => postWithdrawHandler a d s
  | .getTransactions, s => (getTransactionsHandler s, s)
  | .deleteTransactions, s => deleteTransactionsHandler s

/-- Run a sequence of operations, keeping only the final state. -/
def run (ops : List Op) (s : ServerState) : ServerState :=
  ops.foldl (fun st op => (exec op st).2) s

/-- States reachable from the initial state through API operations. -/
inductive Reachable : ServerState → Prop where
  | init : Reachable initState
  | step (op : Op) {s : ServerState} : Reachable s → Reachable (exec op s).2

/-- HTTP methods used by the route table. -/
inductive Method where
  | GET
  | POST
  | PUT
  | DELETE
deriving DecidableEq

/-- One registered route: method and path pattern. -/
structure RouteEntry where
  method : Method
  path : String
deriving DecidableEq

/-- The route table, in registration order from `src/server.js`. -/
def routes : List RouteEntry :=
  [⟨.GET, ("/")⟩,
   ⟨.GET, ("/users")⟩,
   ⟨.GET, ("/users/:id")⟩,
   ⟨.POST, ("/users")⟩,
   ⟨.PUT, ("/users/:id")⟩,
   ⟨.DELETE, ("/users/:id")⟩,
   ⟨.GET, ("/balance")⟩,
   ⟨.POST, ("/deposit")⟩,
   ⟨.POST, ("/withdraw")⟩,
   ⟨.GET, ("/transactions")⟩,
   ⟨.DELETE, ("/transactions")⟩]

/-- The name value stored for a user is a string. -/
def nameIsString : Option Json → Bool
  | some j => j.isStr
  | none => false

/-- The operation supplies a string name wherever it writes one. -/
def opNameOk : Op → Bool
  | .postUsers name => nameIsString name
  | .putUser _ name => nameIsString name
  | _ => true

/-- Every stored user has a string name. -/
def usersWellTyped (us : List User) : Bool :=
  us.all (fun u => nameIsString u.name)

/-- The net amount recorded in the log: sum of deposit amounts minus sum of
withdrawal amounts (the reconciliation formula from the data model). -/
def txNet : List Transaction → Rat
  | [] => 0
  | t :: ts =>
    match t.type with
    | .deposit => t.amount + txNet ts
    | .withdrawal => txNet ts - t.amount

/-! Helper lemmas: case analyses of the state-changing handlers. -/

/-- Case analysis of `POST /deposit`: either the request is rejected with
status 400 and the state is untouched, or the amount is a positive number,
the status is 200, the balance grows and a deposit record is appended. -/
lemma deposit_cases (a : Option Json) (d : String) (s : ServerState) :
    (((exec (Op.deposit a d) s).1).status = 400 ∧ (exec (Op.deposit a d) s).2 = s) ∨
      ∃ q : Rat, a = some (Json.num q) ∧ 0 < q ∧
        ((exec (Op.deposit a d) s).1).status = 200 ∧
        (exec (Op.deposit a d) s).2 =
          { s with
              balance := s.balance + q,
              transactions := s.transactions ++ [⟨TxType.deposit, q, d⟩] } := by
  cases a with
  | none => exact Or.inl ⟨rfl, rfl⟩
  | some j =>
    cases j with
    | null => exact Or.inl ⟨rfl, rfl⟩
    | bool b => exact Or.inl ⟨rfl, rfl⟩
    | str t => exact Or.inl ⟨rfl, rfl⟩
    | arr xs => exact Or.inl ⟨rfl, rfl⟩
    | obj fs => exact Or.inl ⟨rfl, rfl⟩
    | num q =>
      by_cases hq : q ≤ 0
      · left
        constructor <;> simp [exec, postDepositHandler, if_pos hq]
      · right
        refine ⟨q, rfl, not_le.mp hq, ?_, ?_⟩ <;>
          simp [exec, postDepositHandler, if_neg hq]

/-- Case analysis of `POST /withdraw`: either the request is rejected with
status 400 and the state is untouched, or the amount is a positive number not
exceeding the balance, the status is 200, the balance shrinks and a
withdrawal record is appended. -/
lemma withdraw_cases (a : Option Json) (d : String) (s : ServerState) :
    (((exec (Op.withdraw a d) s).1).status = 400 ∧ (exec (Op.withdraw a d) s).2 = s) ∨
      ∃ q : Rat, a = some (Json.num q) ∧ 0 < q ∧ q ≤ s.balance ∧
        ((exec (Op.withdraw a d) s).1).status = 200 ∧
        (exec (Op.withdraw a d) s).2 =
          { s with
              balance := s.balance - q,
              transactions := s.transactions ++ [⟨TxType.withdrawal, q, d⟩] } := by
  cases a with
  | none => exact Or.inl ⟨rfl, rfl⟩
  | some j =>
    cases j with
    | null => exact Or.inl ⟨rfl, rfl⟩
    | bool b => exact Or.inl ⟨rfl, rfl⟩
    | str t => exact Or.inl ⟨rfl, rfl⟩
    | arr xs => exact Or.inl ⟨rfl, rfl⟩
    | obj fs => exact Or.inl ⟨rfl, rfl⟩
    | num q =>
      by_cases hq : q ≤ 0
      · left
        constructor <;> simp [exec, postWithdrawHandler, if_pos hq]
      · by_cases hb : s.balance < q
        · left
          constructor <;> simp [exec, postWithdrawHandler, if_neg hq, if_pos hb]
        · right
          refine ⟨q, rfl, not_le.mp hq, not_lt.mp hb, ?_, ?_⟩ <;>
            simp [exec, postWithdrawHandler, if_neg hq, if_neg hb]

/-- Case analysis of `PUT /users/:id`: the state is either untouched (404) or
its users list is rewritten by `setNameFirst`. -/
lemma putUser_cases (pid : Option Int) (name : Option Json) (s : ServerState) :
    (exec (Op.putUser pid name) s).2 = s ∨
      (exec (Op.putUser pid name) s).2 = { s with users := setNameFirst pid name s.users } := by
  cases h : s.users.find? (idMatches pid) with
  | none => exact Or.inl (by simp [exec, putUserHandler, h])
  | some u => exact Or.inr (by simp [exec, putUserHandler, h])

/-- C1: the id assignment `users.length + 1` is unstable under deletion.
Starting from the initial state, deleting user 1 and then posting a new user
leaves two distinct users in the directory that share id 2. -/
theorem user_id_duplicate_after_delete :
    ∃ (pid : Option Int) (name : Option Json) (i j : Nat) (u v : User),
      i ≠ j ∧
      ((run [Op.deleteUser pid, Op.postUsers name] initState).users)[i]? = some u ∧
      ((run [Op.deleteUser pid, Op.postUsers name] initState).users)[j]? = some v ∧
      u ≠ v ∧ u.id = v.id := by
  refine ⟨some 1, some (Json.str ("Charlie")), 0, 1,
    ⟨2, some (Json.str ("Kai"))⟩, ⟨2, some (Json.str ("Charlie"))⟩,
    by decide, rfl, rfl, ?_, rfl⟩
  intro h
  have h2 := congrArg User.name h
  simp only [Option.some.injEq, Json.str.injEq] at h2
  exact absurd h2 (by decide)

/-- C2 counterexample: after a deposit, the log is nonempty, and the
`DELETE /transactions` operation produces a log that is not an extension of
the previous one — it removes the existing entry. -/
theorem txlog_not_append_only :
    ((exec (Op.deposit (some (Json.num 100)) ("2024-01-01T00:00:00.000Z")) initState).2).transactions ≠
        [] ∧
      ¬ ∃ extra : List Transaction,
        ((exec Op.deleteTransactions
              ((exec (Op.deposit (some (Json.num 100)) ("2024-01-01T00:00:00.000Z")) initState).2)).2).transactions =
          ((exec (Op.deposit (some (Json.num 100)) ("2024-01-01T00:00:00.000Z")) initState).2).transactions ++
            extra := by
  have h1 : ((exec (Op.deposit (some (Json.num 100)) ("2024-01-01T00:00:00.000Z")) initState).2).transactions =
      [⟨TxType.deposit, 100, ("2024-01-01T00:00:00.000Z")⟩] := by decide
  constructor
  · rw [h1]
    intro h
    exact absurd h (by decide)
  · rintro ⟨extra, hx⟩
    rw [h1] at hx
    have h2 : ((exec Op.deleteTransactions
        ((exec (Op.deposit (some (Json.num 100)) ("2024-01-01T00:00:00.000Z")) initState).2)).2).transactions =
        [] := rfl
    rw [h2] at hx
    simp at hx

/-- C2 (amended): every operation other than `DELETE /transactions` is
append-only on the log — the transactions list after the operation is the
list before it, possibly extended with new entries at the end.
`DELETE /transactions` instead resets the log to the empty list. -/
theorem txlog_append_only_except_clear (op : Op) (s : ServerState)
    (h : op ≠ Op.deleteTransactions) :
    ∃ extra : List Transaction,
      ((exec op s).2).transactions = s.transactions ++ extra := by
  cases op with
  | getRoot => exact ⟨[], (List.append_nil _).symm⟩
  | getUsers => exact ⟨[], (List.append_nil _).symm⟩
  | getUser pid => exact ⟨[], (List.append_nil _).symm⟩
  | postUsers name => exact ⟨[], (List.append_nil _).symm⟩
  | putUser pid name =>
    rcases putUser_cases pid name s with h1 | h1 <;> rw [h1] <;>
      exact ⟨[], (List.append_nil _).symm⟩
  | deleteUser pid => exact ⟨[], (List.append_nil _).symm⟩
  | getBalance => exact ⟨[], (List.append_nil _).symm⟩
  | deposit a d =>
    rcases deposit_cases a d s with ⟨_, h1⟩ | ⟨q, ha, hq, hst, h1⟩ <;> rw [h1]
    · exact ⟨[], (List.append_nil _).symm⟩
    · exact ⟨[⟨TxType.deposit, q, d⟩], rfl⟩
  | withdraw a d =>
    rcases withdraw_cases a d s with ⟨_, h1⟩ | ⟨q, ha, hq, hb, hst, h1⟩ <;> rw [h1]
    · exact ⟨[], (List.append_nil _).symm⟩
    · exact ⟨[⟨TxType.withdrawal, q, d⟩], rfl⟩
  | getTransactions => exact ⟨[], (List.append_nil _).symm⟩
  | deleteTransactions => exact absurd rfl h

/-- Witness for the amended C2 theorem at a concrete operation and state. -/
theorem txlog_append_only_except_clear_witness :
    ∃ extra : List Transaction,
      ((exec Op.getUsers initState).2).transactions = initState.transactions ++ extra :=
  txlog_append_only_except_clear Op.getUsers initState
    (by intro h; exact Op.noConfusion h)

/-- C3: the balance is not kept consistent with the log — a state is
reachable (deposit 100, then clear the transactions) whose balance differs
from the net amount recorded in the transactions list. -/
theorem balance_diverges_from_log :
    ∃ s : ServerState, Reachable s ∧ s.balance ≠ txNet s.transactions := by
  refine ⟨(exec Op.deleteTransactions
      ((exec (Op.deposit (some (Json.num 100)) ("2024-01-01T00:00:00.000Z")) initState).2)).2,
    Reachable.step _ (Reachable.step _ Reachable.init), ?_⟩
  have ht : ((exec Op.deleteTransactions
      ((exec (Op.deposit (some (Json.num 100)) ("2024-01-01T00:00:00.000Z")) initState).2)).2).transactions =
      [] := rfl
  have hb : ((exec Op.deleteTransactions
      ((exec (Op.deposit (some (Json.num 100)) ("2024-01-01T00:00:00.000Z")) initState).2)).2).balance =
      initState.balance + 100 := rfl
  rw [ht, hb]
  norm_num [initState, txNet]

/-- C4 step lemma: no single operation can make the balance negative. -/
lemma exec_balance_nonneg (op : Op) (s : ServerState) (h : 0 ≤ s.balance) :
    0 ≤ ((exec op s).2).balance := by
  cases op with
  | getRoot => exact h
  | getUsers => exact h
  | getUser pid => exact h
  | postUsers name => exact h
  | putUser pid name =>
    rcases putUser_cases pid name s with h1 | h1 <;> rw [h1] <;> exact h
  | deleteUser pid => exact h
  | getBalance => exact h
  | deposit a d =>
    rcases deposit_cases a d s with ⟨_, h1⟩ | ⟨q, ha, hq, hst, h1⟩ <;> rw [h1]
    · exact h
    · show 0 ≤ s.balance + q
      exact add_nonneg h (le_of_lt hq)
  | withdraw a d =>
    rcases withdraw_cases a d s with ⟨_, h1⟩ | ⟨q, ha, hq, hb, hst, h1⟩ <;> rw [h1]
    · exact h
    · show 0 ≤ s.balance - q
      exact sub_nonneg.mpr hb
  | getTransactions => exact h
  | deleteTransactions => exact h

/-- C4: the balance is non-negative in every state reachable from the
initial state through API operations, because `POST /deposit` requires a
positive amount and `POST /withdraw` rejects amounts above the balance. -/
theorem balance_nonneg (s : ServerState) (h : Reachable s) : 0 ≤ s.balance := by
  induction h with
  | init => exact le_refl 0
  | step op hr ih => exact exec_balance_nonneg _ _ ih

/-- Witness for C4 at the initial state. -/
theorem balance_nonneg_witness : 0 ≤ initState.balance :=
  balance_nonneg initState Reachable.init

/-- C5: when `POST /deposit` or `POST /withdraw` answers with status 400,
the state (balance, transactions and users alike) is exactly as before. -/
theorem bank_error_atomic (op : Op) (a : Option Json) (d : String) (s : ServerState)
    (hop : op = Op.deposit a d ∨ op = Op.withdraw a d)
    (h400 : ((exec op s).1).status = 400) :
    (exec op s).2 = s := by
  rcases hop with rfl | rfl
  · rcases deposit_cases a d s with ⟨_, h1⟩ | ⟨q, ha, hq, hst, h1⟩
    · exact h1
    · rw [hst] at h400
      exact absurd h400 (by decide)
  · rcases withdraw_cases a d s with ⟨_, h1⟩ | ⟨q, ha, hq, hb, hst, h1⟩
    · exact h1
    · rw [hst] at h400
      exact absurd h400 (by decide)

/-- Witness for C5: a deposit with a missing amount is rejected with 400 and
leaves the initial state unchanged. -/
theorem bank_error_atomic_witness :
    (exec (Op.deposit none ("2024-01-01T00:00:00.000Z")) initState).2 = initState :=
  bank_error_atomic (Op.deposit none ("2024-01-01T00:00:00.000Z")) none
    ("2024-01-01T00:00:00.000Z") initState (Or.inl rfl) rfl

/-- C10 counterexample: the route table has eleven entries, not nine. -/
theorem routes_count_not_nine : routes.length = 11 ∧ routes.length ≠ 9 := by
  decide

/-- C10 (amended): the program registers exactly eleven route handlers (one
root route plus ten endpoints on the two collections), and every operation
touches at most one of the two mutable collections: it leaves the users list
unchanged, or it leaves the balance and the transactions list unchanged. -/
theorem routes_eleven_two_collections :
    routes.length = 11 ∧
      ∀ (op : Op) (s : ServerState),
        ((exec op s).2).users = s.users ∨
          (((exec op s).2).balance = s.balance ∧
            ((exec op s).2).transactions = s.transactions) := by
  refine ⟨rfl, ?_⟩
  intro op s
  cases op with
  | getRoot => exact Or.inl rfl
  | getUsers => exact Or.inl rfl
  | getUser pid => exact Or.inl rfl
  | postUsers name => exact Or.inr ⟨rfl, rfl⟩
  | putUser pid name =>
    rcases putUser_cases pid name s with h1 | h1 <;> rw [h1]
    · exact Or.inl rfl
    · exact Or.inr ⟨rfl, rfl⟩
  | deleteUser pid => exact Or.inr ⟨rfl, rfl⟩
  | getBalance => exact Or.inl rfl
  | deposit a d =>
    rcases deposit_cases a d s with ⟨_, h1⟩ | ⟨q, ha, hq, hst, h1⟩ <;> rw [h1]
    · exact Or.inl rfl
    · exact Or.inl rfl
  | withdraw a d =>
    rcases withdraw_cases a d s with ⟨_, h1⟩ | ⟨q, ha, hq, hb, hst, h1⟩ <;> rw [h1]
    · exact Or.inl rfl
    · exact Or.inl rfl
  | getTransactions => exact Or.inl rfl
  | deleteTransactions => exact Or.inl rfl

/-- C6 counterexample: `POST /users` with body `{ name: 5 }` (a number, not
a string) stores a user whose name is not a string, in a reachable state. -/
theorem user_name_not_string_reachable :
    Reachable ((exec (Op.postUsers (some (Json.num 5))) initState).2) ∧
      ∃ u : User, u ∈ ((exec (Op.postUsers (some (Json.num 5))) initState).2).users ∧
        nameIsString u.name = false := by
  refine ⟨Reachable.step _ Reachable.init, ⟨3, some (Json.num 5)⟩, ?_, rfl⟩
  have h : ((exec (Op.postUsers (some (Json.num 5))) initState).2).users =
      [⟨1, some (Json.str ("Eddie"))⟩, ⟨2, some (Json.str ("Kai"))⟩,
        ⟨3, some (Json.num 5)⟩] := rfl
  rw [h]
  exact List.mem_cons_of_mem _ (List.mem_cons_of_mem _ (List.mem_cons_self _ _))

/-- Updating the first matching user's name preserves well-typedness when
the new name is a string. -/
lemma setNameFirst_wellTyped (pid : Option Int) (nm : Option Json)
    (hnm : nameIsString nm = true) :
    ∀ us : List User, usersWellTyped us = true →
      usersWellTyped (setNameFirst pid nm us) = true := by
  intro us
  induction us with
  | nil => intro _; rfl
  | cons u rest ih =>
    intro hus
    simp only [usersWellTyped, List.all_cons, Bool.and_eq_true] at hus
    by_cases hm : idMatches pid u = true
    · simp only [setNameFirst, if_pos hm, usersWellTyped, List.all_cons, Bool.and_eq_true]
      exact ⟨hnm, hus.2⟩
    · simp only [setNameFirst, if_neg hm, usersWellTyped, List.all_cons, Bool.and_eq_true]
      exact ⟨hus.1, ih hus.2⟩

/-- C6 step lemma: an operation that supplies a string name wherever it
writes one preserves well-typedness of the users list. -/
lemma exec_wellTyped (op : Op) (s : ServerState) (hop : opNameOk op = true)
    (hs : usersWellTyped s.users = true) :
    usersWellTyped ((exec op s).2.users) = true := by
  cases op with
  | getRoot => exact hs
  | getUsers => exact hs
  | getUser pid => exact hs
  | getBalance => exact hs
  | getTransactions => exact hs
  | deleteTransactions => exact hs
  | postUsers name =>
    show usersWellTyped (s.users ++ [⟨(s.users.length : Int) + 1, name⟩]) = true
    simp only [usersWellTyped, List.all_append, List.all_cons, List.all_nil,
      Bool.and_true, Bool.and_eq_true]
    exact ⟨hs, hop⟩
  | putUser pid name =>
    rcases putUser_cases pid name s with h1 | h1 <;> rw [h1]
    · exact hs
    · exact setNameFirst_wellTyped pid name hop s.users hs
  | deleteUser pid =>
    show usersWellTyped (s.users.filter (fun u => !(idMatches pid u))) = true
    simp only [usersWellTyped, List.all_eq_true] at hs ⊢
    intro u hu
    exact hs u (List.mem_of_mem_filter hu)
  | deposit a d =>
    rcases deposit_cases a d s with ⟨_, h1⟩ | ⟨q, ha, hq, hst, h1⟩ <;> rw [h1] <;> exact hs
  | withdraw a d =>
    rcases withdraw_cases a d s with ⟨_, h1⟩ | ⟨q, ha, hq, hb, hst, h1⟩ <;> rw [h1] <;>
      exact hs

/-- C6 (amended): the id of every stored user is an integer by construction,
but the stored name is copied verbatim from the request body; the users list
keeps string names exactly when every `POST /users` and `PUT /users/:id`
supplies a string name, starting from a well-typed list. -/
theorem users_welltyped_when_names_strings (ops : List Op) :
    ∀ s : ServerState, ops.all opNameOk = true → usersWellTyped s.users = true →
      usersWellTyped ((run ops s).users) = true := by
  induction ops with
  | nil => exact fun s _ hs => hs
  | cons op rest ih =>
    intro s hops hs
    simp only [List.all_cons, Bool.and_eq_true] at hops
    exact ih ((exec op s).2) hops.2 (exec_wellTyped op s hops.1 hs)

/-- Witness for the amended C6 theorem at a concrete run. -/
theorem users_welltyped_when_names_strings_witness :
    usersWellTyped ((run [Op.postUsers (some (Json.str ("Zoe")))] initState).users) = true :=
  users_welltyped_when_names_strings [Op.postUsers (some (Json.str ("Zoe")))]
    initState rfl rfl

/-- C7 step lemma: every transaction an operation appends has a positive
amount. -/
lemma exec_tx_amount_pos (op : Op) (s : ServerState)
    (hs : ∀ t ∈ s.transactions, 0 < t.amount) :
    ∀ t ∈ ((exec op s).2).transactions, 0 < t.amount := by
  cases op with
  | getRoot => exact hs
  | getUsers => exact hs
  | getUser pid => exact hs
  | postUsers name => exact hs
  | putUser pid name =>
    rcases putUser_cases pid name s with h1 | h1 <;> rw [h1] <;> exact hs
  | deleteUser pid => exact hs
  | getBalance => exact hs
  | getTransactions => exact hs
  | deleteTransactions =>
    intro t ht
    exact absurd ht (List.not_mem_nil t)
  | deposit a d =>
    rcases deposit_cases a d s with ⟨_, h1⟩ | ⟨q, ha, hq, hst, h1⟩ <;> rw [h1]
    · exact hs
    · intro t ht
      rcases List.mem_append.mp ht with hmem | hmem
      · exact hs t hmem
      · rw [List.mem_singleton.mp hmem]
        exact hq
  | withdraw a d =>
    rcases withdraw_cases a d s with ⟨_, h1⟩ | ⟨q, ha, hq, hb, hst, h1⟩ <;> rw [h1]
    · exact hs
    · intro t ht
      rcases List.mem_append.mp ht with hmem | hmem
      · exact hs t hmem
      · rw [List.mem_singleton.mp hmem]
        exact hq

/-- C7: in every reachable state, each recorded transaction has a positive
amount and its type is either a deposit or a withdrawal. -/
theorem tx_model_invariant (s : ServerState) (h : Reachable s) :
    ∀ t ∈ s.transactions,
      0 < t.amount ∧ (t.type = TxType.deposit ∨ t.type = TxType.withdrawal) := by
  have hpos : ∀ t ∈ s.transactions, 0 < t.amount := by
    induction h with
    | init => exact fun t ht => absurd ht (List.not_mem_nil t)
    | step op hr ih => exact exec_tx_amount_pos _ _ ih
  intro t ht
  refine ⟨hpos t ht, ?_⟩
  cases h2 : t.type with
  | deposit => exact Or.inl rfl
  | withdrawal => exact Or.inr rfl

/-- Witness for C7 at the transaction recorded by a concrete deposit. -/
theorem tx_model_invariant_witness :
    0 < (Transaction.mk TxType.deposit 5 ("2024-01-01T00:00:00.000Z")).amount ∧
      ((Transaction.mk TxType.deposit 5 ("2024-01-01T00:00:00.000Z")).type = TxType.deposit ∨
        (Transaction.mk TxType.deposit 5 ("2024-01-01T00:00:00.000Z")).type = TxType.withdrawal) :=
  tx_model_invariant
    ((exec (Op.deposit (some (Json.num 5)) ("2024-01-01T00:00:00.000Z")) initState).2)
    (Reachable.step _ Reachable.init)
    (Transaction.mk TxType.deposit 5 ("2024-01-01T00:00:00.000Z")) (by decide)

/-- First-match characterisation of `List.find?`: it returns `none` exactly
when no element satisfies the predicate, and otherwise the element it
returns sits at an index before which no element satisfies it. -/
lemma find_first_spec {α : Type} (p : α → Bool) (l : List α) :
    (l.find? p = none ∧ ∀ x ∈ l, p x = false) ∨
      ∃ (i : Nat) (x : α), l[i]? = some x ∧ p x = true ∧ l.find? p = some x ∧
        ∀ (j : Nat) (y : α), j < i → l[j]? = some y → p y = false := by
  induction l with
  | nil => exact Or.inl ⟨rfl, fun x hx => absurd hx (List.not_mem_nil x)⟩
  | cons a t ih =>
    by_cases hpa : p a = true
    · refine Or.inr ⟨0, a, List.getElem?_cons_zero, hpa, List.find?_cons_of_pos t hpa, ?_⟩
      intro j y hj _
      exact absurd hj (Nat.not_lt_zero j)
    · have hf : p a = false := by simpa using hpa
      rcases ih with ⟨hn, hall⟩ | ⟨i, x, hget, hpx, hfind, hfirst⟩
      · refine Or.inl ⟨?_, ?_⟩
        · rw [List.find?_cons_of_neg t hpa]
          exact hn
        · intro x hx
          rcases List.mem_cons.mp hx with rfl | hx2
          · exact hf
          · exact hall x hx2
      · refine Or.inr ⟨i + 1, x, by simpa using hget, hpx, ?_, ?_⟩
        · rw [List.find?_cons_of_neg t hpa]
          exact hfind
        · intro j y hj hy
          cases j with
          | zero =>
            have hya : y = a := by
              rw [List.getElem?_cons_zero] at hy
              exact (Option.some.injEq _ _ ▸ hy).symm
            rw [hya]
            exact hf
          | succ k =>
            have hy2 : t[k]? = some y := by simpa using hy
            exact hfirst k y (Nat.lt_of_succ_lt_succ hj) hy2

/-- The matching predicate with an integer route parameter tests exactly id
equality. -/
lemma idMatches_some_iff (n : Int) (u : User) : idMatches (some n) u = true ↔ u.id = n := by
  simp [idMatches]

/-- C8: `GET /users/:id` is a linear scan.  It responds 404 with error
message "User not found" exactly when no stored user has the parsed id, and
otherwise it returns the first user in list order with that id. -/
theorem getUser_scan (us : List User) (b : Rat) (ts : List Transaction) (n : Int) :
    (((exec (Op.getUser (some n)) ⟨us, b, ts⟩).1 =
          ⟨404, RespBody.errorMsg ("User not found")⟩) ↔ ∀ u ∈ us, u.id ≠ n) ∧
      ((∀ u ∈ us, u.id ≠ n) ∨
        ∃ (i : Nat) (u : User), us[i]? = some u ∧ u.id = n ∧
          (exec (Op.getUser (some n)) ⟨us, b, ts⟩).1 = ⟨200, RespBody.userVal u⟩ ∧
          ∀ (j : Nat) (v : User), j < i → us[j]? = some v → v.id ≠ n) := by
  rcases find_first_spec (idMatches (some n)) us with ⟨hn, hall⟩ | ⟨i, u, hget, hpu, hfind, hfirst⟩
  · have hnomatch : ∀ u ∈ us, u.id ≠ n := by
      intro u hu
      have h2 := hall u hu
      simpa [idMatches] using h2
    have hresp : (exec (Op.getUser (some n)) ⟨us, b, ts⟩).1 =
        ⟨404, RespBody.errorMsg ("User not found")⟩ := by
      show getUserByIdHandler (some n) ⟨us, b, ts⟩ = _
      rw [getUserByIdHandler]
      show (match (us.find? (idMatches (some n))) with
        | none => (⟨404, RespBody.errorMsg ("User not found")⟩ : Response)
        | some u => ⟨200, RespBody.userVal u⟩) = _
      rw [hn]
    exact ⟨⟨fun _ => hnomatch, fun _ => hresp⟩, Or.inl hnomatch⟩
  · have hid : u.id = n := (idMatches_some_iff n u).mp hpu
    have hresp : (exec (Op.getUser (some n)) ⟨us, b, ts⟩).1 = ⟨200, RespBody.userVal u⟩ := by
      show getUserByIdHandler (some n) ⟨us, b, ts⟩ = _
      rw [getUserByIdHandler]
      show (match (us.find? (idMatches (some n))) with
        | none => (⟨404, RespBody.errorMsg ("User not found")⟩ : Response)
        | some u => ⟨200, RespBody.userVal u⟩) = _
      rw [hfind]
    constructor
    · constructor
      · intro h404
        rw [hresp] at h404
        exact absurd h404 (by simp)
      · intro hno
        exact absurd hid (hno u (List.getElem?_mem hget))
    · refine Or.inr ⟨i, u, hget, hid, hresp, ?_⟩
      intro j v hj hv
      have h2 := hfirst j v hj hv
      simpa [idMatches] using h2

/-- C9: `DELETE /users/:id` never fails.  It always responds 200 with the
message "User deleted"; the resulting users list is a sublist of the old one
(order preserved) containing exactly the users whose id does not match the
parameter; balance and transactions are untouched. -/
theorem deleteUser_always_succeeds (us : List User) (b : Rat) (ts : List Transaction)
    (pid : Option Int) :
    (exec (Op.deleteUser pid) ⟨us, b, ts⟩).1 = ⟨200, RespBody.messageMsg ("User deleted")⟩ ∧
      List.Sublist ((exec (Op.deleteUser pid) ⟨us, b, ts⟩).2.users) us ∧
      (∀ u : User, u ∈ (exec (Op.deleteUser pid) ⟨us, b, ts⟩).2.users ↔
        (u ∈ us ∧ idMatches pid u = false)) ∧
      (exec (Op.deleteUser pid) ⟨us, b, ts⟩).2.balance = b ∧
      (exec (Op.deleteUser pid) ⟨us, b, ts⟩).2.transactions = ts := by
  refine ⟨rfl, ?_, ?_, rfl, rfl⟩
  · show List.Sublist (us.filter (fun u => !(idMatches pid u))) us
    exact List.filter_sublist us
  · intro u
    show u ∈ us.filter (fun u => !(idMatches pid u)) ↔ _
    rw [List.mem_filter]
    simp

end BackendDemo
